/-
Verification of the risk-metrics engine of `ibovespa-risk-analysis`.

The numerical kernel (src/analysis/custom_metrics.py, risk_metrics.py,
portfolio_analysis.py) is embedded shallowly:

* real numbers are idealised as rationals (`ℚ`);
* IEEE special values that numpy/pandas produce (NaN from empty means,
  from `std` with fewer than two observations, ±∞ from division of a
  nonzero float by 0.0) are modelled explicitly by the type `FVal`;
* `np.sqrt` is not rational-valued, so the development is parametric in a
  function `sq : ℚ → ℚ` standing for the square root; theorems assume only
  the properties of √ they need (`sq 0 = 0`, positivity on positives), and
  witnesses instantiate `sq` with a concrete admissible function;
* pandas NA-handling (`dropna`, skip-NA `cumprod`/`expanding().max()`/`min`)
  is modelled with `Option ℚ`, `none` playing NaN inside series.
-/
import Mathlib

namespace Ibov

/-- Result of a floating-point metric computation: a finite value,
a signed infinity, or NaN. -/
inductive FVal where
  | fin : ℚ → FVal
  | pinf : FVal
  | ninf : FVal
  | nan : FVal
deriving DecidableEq, Repr

namespace FVal

/-- IEEE-754 division on metric values: a nonzero finite value divided by
zero is a signed infinity, `0/0` and anything involving NaN is NaN
(numpy semantics of `np.float64` division, which the code hits through
`mean / std`). -/
def fdiv : FVal → FVal → FVal
  | fin a, fin b =>
      if b = 0 then
        (if a = 0 then nan else if 0 < a then pinf else ninf)
      else fin (a / b)
  | fin a, pinf => if a = 0 then fin 0 else fin 0
  | fin a, ninf => if a = 0 then fin 0 else fin 0
  | pinf, fin b => if 0 ≤ b then pinf else ninf
  | ninf, fin b => if 0 ≤ b then ninf else pinf
  | pinf, pinf => nan
  | pinf, ninf => nan
  | ninf, pinf => nan
  | ninf, ninf => nan
  | nan, _ => nan
  | _, nan => nan

/-- Multiplication of a metric value by a finite scalar on the left
(`np.sqrt(periods_per_year) * x`). -/
def smul (c : ℚ) : FVal → FVal
  | fin x => fin (c * x)
  | pinf => if c = 0 then nan else if 0 < c then pinf else ninf
  | ninf => if c = 0 then nan else if 0 < c then ninf else pinf
  | nan => nan

/-- Multiplication of a metric value by a finite scalar on the right
(`downside.std() * np.sqrt(periods_per_year)`). -/
def mulc : FVal → ℚ → FVal
  | fin x, c => fin (x * c)
  | pinf, c => if c = 0 then nan else if 0 < c then pinf else ninf
  | ninf, c => if c = 0 then nan else if 0 < c then ninf else pinf
  | nan, _ => nan

/-- The boolean comparison `x > 0` as numpy evaluates it: false on NaN. -/
def gtZero : FVal → Bool
  | fin x => decide (0 < x)
  | pinf => true
  | ninf => false
  | nan => false

end FVal

/-- `pd.Series.mean()`: NaN on an empty series, else the arithmetic mean. -/
def seriesMean (xs : List ℚ) : FVal :=
  if xs.isEmpty then FVal.nan else FVal.fin (xs.sum / xs.length)

/-- Sample variance with `ddof=1` (the pandas default); only meaningful for
`2 ≤ xs.length`, guarded by `seriesStd`. -/
def sampleVar (xs : List ℚ) : ℚ :=
  let μ := xs.sum / xs.length
  (xs.map (fun x => (x - μ) ^ 2)).sum / (xs.length - 1)

/-- `pd.Series.std()` (ddof = 1): NaN for fewer than 2 observations, else
the square root of the sample variance.  `sq` stands for the real square
root, which is not rational-valued; theorems assume of it exactly the
properties of √ they use. -/
def seriesStd (sq : ℚ → ℚ) (xs : List ℚ) : FVal :=
  if xs.length < 2 then FVal.nan else FVal.fin (sq (sampleVar xs))

/-- `calculate_returns` for a single price series:
`prices.pct_change().dropna()`. -/
def calculate_returns (prices : List ℚ) : List ℚ :=
  match prices with
  | [] => []
  | p :: rest => List.zipWith (fun a b => (b - a) / a) (p :: rest) rest

/-- `calculate_sharpe_ratio` with a constant annualized risk-free rate
(the `else` branch of the source):
`np.sqrt(periods_per_year) * excess_returns.mean() / returns.std()`
with `excess_returns = returns - risk_free_rate / periods_per_year`. -/
def calculate_sharpe_ratio (sq : ℚ → ℚ) (returns : List ℚ)
    (risk_free_rate : ℚ) (periods_per_year : ℚ) : FVal :=
  let rf_daily := risk_free_rate / periods_per_year
  let excess_returns := returns.map (fun r => r - rf_daily)
  FVal.fdiv (FVal.smul (sq periods_per_year) (seriesMean excess_returns))
    (seriesStd sq returns)

/-- `calculate_sortino_ratio`, single series, constant risk-free rate:
downside = `returns[returns < 0]`; if `downside.std() > 0` the annualized
mean excess over that std, else NaN. -/
def calculate_sortino_ratio (sq : ℚ → ℚ) (returns : List ℚ)
    (risk_free_rate : ℚ) (periods_per_year : ℚ) : FVal :=
  let rf_daily := risk_free_rate / periods_per_year
  let excess_returns := returns.map (fun r => r - rf_daily)
  let downside := returns.filter (fun r => r < 0)
  let downside_std := seriesStd sq downside
  if downside_std.gtZero then
    FVal.fdiv (FVal.smul (sq periods_per_year) (seriesMean excess_returns))
      downside_std
  else FVal.nan

/-- `calculate_semi_deviation`, single series:
`returns[returns < 0].std() * np.sqrt(periods_per_year)`. -/
def calculate_semi_deviation (sq : ℚ → ℚ) (returns : List ℚ)
    (periods_per_year : ℚ) : FVal :=
  let downside := returns.filter (fun r => r < 0)
  FVal.mulc (seriesStd sq downside) (sq periods_per_year)

/-- `calculate_volatility`: `returns.std() * np.sqrt(periods_per_year)`. -/
def calculate_volatility (sq : ℚ → ℚ) (returns : List ℚ)
    (periods_per_year : ℚ) : FVal :=
  FVal.mulc (seriesStd sq returns) (sq periods_per_year)

end Ibov

namespace Ibov

/-! ## Theorems: Sharpe ratio at zero variance (C1), short price series (C4),
degenerate downside (C5) -/

/-- C1 (counterexample): the constant return series `[1/4, 1/4, 1/4]` has zero
sample variance, yet `calculate_sharpe_ratio` returns `+∞` (the nonzero mean
excess return divided by the exact float zero `std`), not NaN. -/
theorem C1_counterexample :
    sampleVar [(1:ℚ)/4, 1/4, 1/4] = 0 ∧
    calculate_sharpe_ratio (fun x => x) [(1:ℚ)/4, 1/4, 1/4] 0 252 = FVal.pinf ∧
    FVal.pinf ≠ FVal.nan := by
  refine ⟨by norm_num [sampleVar], ?_, by decide⟩
  norm_num [calculate_sharpe_ratio, seriesMean, seriesStd, sampleVar, FVal.smul, FVal.fdiv]

/-- C1 (amended): for a return series with at least two observations and zero
sample variance, `calculate_sharpe_ratio` returns NaN exactly when the mean
excess return is also zero; otherwise it returns the signed infinity carrying
the sign of the mean excess return — never a finite value.  `sq` stands for
the (irrational-valued) square root, assumed only to vanish at 0 and to be
positive at `periods_per_year`. -/
theorem C1_sharpe_zero_variance (sq : ℚ → ℚ) (returns : List ℚ) (rf ppy : ℚ)
    (h2 : 2 ≤ returns.length) (hvar : sampleVar returns = 0) (hsq0 : sq 0 = 0)
    (hppy : 0 < sq ppy) :
    calculate_sharpe_ratio sq returns rf ppy =
      if (returns.map (fun r => r - rf / ppy)).sum / returns.length = 0 then FVal.nan
      else if 0 < (returns.map (fun r => r - rf / ppy)).sum / returns.length then FVal.pinf
      else FVal.ninf := by
  have hne : returns ≠ [] := by
    cases returns with
    | nil => simp at h2
    | cons a t => simp
  have hlt : ¬ returns.length < 2 := by omega
  simp only [calculate_sharpe_ratio, seriesMean, seriesStd, hlt, if_false,
    List.isEmpty_eq_true, hne, hvar, hsq0, List.length_map, if_neg hne]
  set m := (returns.map (fun r => r - rf / ppy)).sum / returns.length with hm
  simp only [FVal.smul, FVal.fdiv]
  have hc : sq ppy ≠ 0 := ne_of_gt hppy
  by_cases hm0 : m = 0
  · simp [hm0, hne]
  · have hprod : sq ppy * m ≠ 0 := mul_ne_zero hc hm0
    simp only [if_pos rfl, hprod, if_false, if_neg hm0]
    by_cases hpos : 0 < m
    · have : 0 < sq ppy * m := mul_pos hppy hpos
      simp [this, hpos, hne, hc, hm0]
    · have hneg : m < 0 := lt_of_le_of_ne (not_lt.mp hpos) hm0
      have : ¬ 0 < sq ppy * m := by
        have : sq ppy * m < 0 := mul_neg_of_pos_of_neg hppy hneg
        exact not_lt.mpr (le_of_lt this)
      simp [this, hpos, hne, hneg, hc, hm0]

/-- C1 (witness): the amended theorem applied to `[1/4, 1/4, 1/4]`, risk-free
rate 0, 252 periods per year; the mean excess return is positive, so the
result is `+∞`. -/
theorem C1_sharpe_zero_variance_witness :
    2 ≤ ([(1:ℚ)/4, 1/4, 1/4] : List ℚ).length ∧
    sampleVar [(1:ℚ)/4, 1/4, 1/4] = 0 ∧
    calculate_sharpe_ratio (fun x => x) [(1:ℚ)/4, 1/4, 1/4] 0 252 = FVal.pinf :=
  ⟨by decide, by norm_num [sampleVar],
    (C1_sharpe_zero_variance (fun x => x) [(1:ℚ)/4, 1/4, 1/4] 0 252 (by decide)
      (by norm_num [sampleVar]) rfl (by norm_num)).trans (by norm_num)⟩

/-- C4 (counterexample): on the single-point price series `[100]`,
`calculate_returns` does not raise any error — there is no
`InvalidInputError` anywhere in the code base — it returns the empty
return series. -/
theorem C4_counterexample :
    calculate_returns [(100 : ℚ)] = [] := by
  decide

/-- C4 (amended): supplying fewer than 2 price points to `calculate_returns`
yields the empty return series; no exception is raised. -/
theorem C4_short_series_empty (prices : List ℚ) (h : prices.length < 2) :
    calculate_returns prices = [] := by
  match prices with
  | [] => rfl
  | [p] => rfl
  | p :: q :: rest => simp at h; omega

/-- C4 (witness): the amended theorem applied to the one-point series `[100]`. -/
theorem C4_short_series_empty_witness :
    ([(100 : ℚ)] : List ℚ).length < 2 ∧ calculate_returns [(100 : ℚ)] = [] :=
  ⟨by decide, C4_short_series_empty [(100 : ℚ)] (by decide)⟩

/-- C5 (counterexample): the return series `[-1/2, -1/2]` has two negative
observations with zero downside variance (`downside_std == 0`), yet
`calculate_semi_deviation` returns the finite value 0, not NaN. -/
theorem C5_counterexample :
    sampleVar (([-(1:ℚ)/2, -1/2] : List ℚ).filter (fun r => r < 0)) = 0 ∧
    2 ≤ (([-(1:ℚ)/2, -1/2] : List ℚ).filter (fun r => r < 0)).length ∧
    calculate_semi_deviation (fun x => x) [-(1:ℚ)/2, -1/2] 252 = FVal.fin 0 ∧
    FVal.fin 0 ≠ FVal.nan := by
  refine ⟨by norm_num [sampleVar, List.filter], by norm_num [List.filter], ?_, by decide⟩
  norm_num [calculate_semi_deviation, seriesStd, sampleVar, List.filter, FVal.mulc]

/-- C5 (amended): with fewer than 2 negative observations both
`calculate_sortino_ratio` and `calculate_semi_deviation` return NaN without
raising; when at least 2 negative observations exist but their sample
variance (hence `downside_std`) is zero, the Sortino ratio is still NaN but
the semi-deviation is the finite value 0, not NaN. -/
theorem C5_downside_degenerate (sq : ℚ → ℚ) (returns : List ℚ) (rf ppy : ℚ)
    (hsq0 : sq 0 = 0) :
    ((returns.filter (fun r => r < 0)).length < 2 →
      calculate_sortino_ratio sq returns rf ppy = FVal.nan ∧
      calculate_semi_deviation sq returns ppy = FVal.nan) ∧
    (2 ≤ (returns.filter (fun r => r < 0)).length →
      sampleVar (returns.filter (fun r => r < 0)) = 0 →
      calculate_sortino_ratio sq returns rf ppy = FVal.nan ∧
      calculate_semi_deviation sq returns ppy = FVal.fin 0) := by
  constructor
  · intro hlen
    constructor
    · simp [calculate_sortino_ratio, seriesStd, hlen, FVal.gtZero]
    · simp [calculate_semi_deviation, seriesStd, hlen, FVal.mulc]
  · intro hlen hvar
    have hnlt : ¬ (returns.filter (fun r => r < 0)).length < 2 := by omega
    constructor
    · simp [calculate_sortino_ratio, seriesStd, hnlt, hvar, hsq0, FVal.gtZero]
    · simp [calculate_semi_deviation, seriesStd, hnlt, hvar, hsq0, FVal.mulc]

/-- C5 (witness): the amended theorem applied to `[1/100, 2/100]` (no
negative observation: both metrics NaN) and to `[-1/2, -1/2]` (two equal
negative observations: Sortino NaN, semi-deviation 0). -/
theorem C5_downside_degenerate_witness :
    (calculate_sortino_ratio (fun x => x) [(1:ℚ)/100, 2/100] 0 252 = FVal.nan ∧
     calculate_semi_deviation (fun x => x) [(1:ℚ)/100, 2/100] 252 = FVal.nan) ∧
    (calculate_sortino_ratio (fun x => x) [-(1:ℚ)/2, -1/2] 0 252 = FVal.nan ∧
     calculate_semi_deviation (fun x => x) [-(1:ℚ)/2, -1/2] 252 = FVal.fin 0) :=
  ⟨(C5_downside_degenerate (fun x => x) [(1:ℚ)/100, 2/100] 0 252 rfl).1
      (by norm_num [List.filter]),
   (C5_downside_degenerate (fun x => x) [-(1:ℚ)/2, -1/2] 0 252 rfl).2
      (by norm_num [List.filter]) (by norm_num [sampleVar, List.filter])⟩

end Ibov

namespace Ibov

/-! ## Embedding: analyzer state (risk_metrics.py) and portfolio weights
(portfolio_analysis.py) -/

/-- State of an `IbovespaRiskAnalyzer`: the downloaded price table and the
`metrics` dictionary (each metric table is the single row the code builds,
one `FVal` per asset column). -/
structure RiskAnalyzerState where
  tickers : List String
  data : Option (List (String × List ℚ))
  metrics : List (String × List (String × FVal))
deriving Repr

/-- `IbovespaRiskAnalyzer.__init__`: no data yet, `self.metrics = {}`. -/
def riskAnalyzerInit (tickers : List String) : RiskAnalyzerState :=
  { tickers := tickers, data := none, metrics := [] }

/-- The two `ValueError`s of `risk_metrics.py`; the second is the spec's
`NotComputedError` ("Metrics not calculated. Call calculate_all_metrics()
first."). -/
inductive AnalyzerError where
  | dataNotDownloaded
  | metricsNotCalculated
deriving DecidableEq, Repr

/-- `download_data`: stores the externally fetched price table; `metrics`
is untouched. -/
def download_data (s : RiskAnalyzerState) (raw : List (String × List ℚ)) :
    RiskAnalyzerState :=
  { s with data := some raw }

/-- `get_latest_metrics`: raises immediately when `self.metrics` is empty
(falsy); otherwise assembles the first row of every metric table — a
passthrough, since each table has a single row. -/
def get_latest_metrics (s : RiskAnalyzerState) :
    Except AnalyzerError (List (String × List (String × FVal))) :=
  if s.metrics.isEmpty then .error .metricsNotCalculated
  else .ok s.metrics

/-- `np.isclose(a, b)` with numpy's default tolerances
`rtol=1e-5, atol=1e-8`. -/
def npIsClose (a b : ℚ) : Bool :=
  |a - b| ≤ 1/100000000 + (1/100000) * |b|

/-- Python float division by zero raises. -/
inductive PortfolioError where
  | zeroDivisionError
deriving DecidableEq, Repr

/-- `PortfolioAnalyzer.__init__`, weight-validation part: if the supplied
weights do not sum (close to) 1 they are each divided by the sum after a
printed warning (the returned `Bool`); dividing by an exactly zero sum is a
Python `ZeroDivisionError`. -/
def portfolioInitWeights (weights : List (String × ℚ)) :
    Except PortfolioError (List (String × ℚ) × Bool) :=
  let total := (weights.map Prod.snd).sum
  if npIsClose total 1 then .ok (weights, false)
  else if total = 0 then .error .zeroDivisionError
  else .ok (weights.map (fun kv => (kv.1, kv.2 / total)), true)

/-- Aligned excess-return series for a dated risk-free rate series: the
source intersects the two indexes and subtracts the restricted series
(`aligned_returns - aligned_rf`); a dated observation of `returns` survives
exactly when the rate series also carries its date. -/
def excess_return_series (returns riskFree : List (Nat × ℚ)) : List (Nat × ℚ) :=
  returns.filterMap (fun kv =>
    (riskFree.lookup kv.1).map (fun r => (kv.1, kv.2 - r)))

/-- `calculate_sharpe_ratio`, dated `risk_free_rate` branch: statistics are
taken on the aligned excess-return series directly:
`np.sqrt(periods_per_year) * excess_returns.mean() / excess_returns.std()`. -/
def calculate_sharpe_ratio_dated (sq : ℚ → ℚ) (returns riskFree : List (Nat × ℚ))
    (periods_per_year : ℚ) : FVal :=
  let excess := (excess_return_series returns riskFree).map Prod.snd
  FVal.fdiv (FVal.smul (sq periods_per_year) (seriesMean excess))
    (seriesStd sq excess)

/-! ## Theorems: summary before computation (C9), weight normalization (C7),
risk-free alignment (C6) -/

/-- C9 (confirmed): on a freshly constructed analyzer — with or without
downloaded data — `get_latest_metrics` fails immediately with the
"Metrics not calculated" error (the spec's `NotComputedError`), because
`calculate_all_metrics` has not populated `self.metrics`. -/
theorem C9_latest_before_compute (tickers : List String)
    (raw : List (String × List ℚ)) :
    get_latest_metrics (riskAnalyzerInit tickers) =
      .error AnalyzerError.metricsNotCalculated ∧
    get_latest_metrics (download_data (riskAnalyzerInit tickers) raw) =
      .error AnalyzerError.metricsNotCalculated := by
  constructor <;> rfl

end Ibov

namespace Ibov

/-- Summing termwise-divided values divides the sum. -/
lemma sum_map_div (l : List ℚ) (t : ℚ) : (l.map (fun v => v / t)).sum = l.sum / t := by
  induction l with
  | nil => simp
  | cons a l ih => simp [add_div, ih]

/-- C7 (counterexample): the weight mapping `{A: 1, B: -1}` does not sum to
1.0, so the constructor divides by the sum — which is exactly 0 — and a
Python `ZeroDivisionError` is raised instead of the claimed warning-only
normalization. -/
theorem C7_counterexample :
    portfolioInitWeights [("A", (1:ℚ)), ("B", -1)] =
      .error PortfolioError.zeroDivisionError := by
  norm_num [portfolioInitWeights, npIsClose]

/-- C7 (amended): for every weight mapping whose sum is not within numpy's
`isclose` tolerance of 1.0 and is nonzero, the constructor divides every
weight (negative ones included) by the sum, emits the warning, raises
nothing, and the resulting weights sum exactly to 1. A mapping whose
weights sum exactly to 0 instead raises `ZeroDivisionError`. -/
theorem C7_weight_normalization (weights : List (String × ℚ))
    (hfar : npIsClose ((weights.map Prod.snd).sum) 1 = false)
    (hnz : (weights.map Prod.snd).sum ≠ 0) :
    portfolioInitWeights weights =
      .ok (weights.map
        (fun kv => (kv.1, kv.2 / (weights.map Prod.snd).sum)), true) ∧
    ((weights.map
        (fun kv => (kv.1, kv.2 / (weights.map Prod.snd).sum))).map Prod.snd).sum = 1 := by
  constructor
  · simp [portfolioInitWeights, hfar, hnz]
  · have hmap : (weights.map
        (fun kv => (kv.1, kv.2 / (weights.map Prod.snd).sum))).map Prod.snd =
        (weights.map Prod.snd).map (fun v => v / (weights.map Prod.snd).sum) := by
      simp [List.map_map, Function.comp]
    rw [hmap, sum_map_div, div_self hnz]

/-- C7 (witness): the amended theorem applied to `{A: 2, B: 2}` (normalized
to `{A: 0.5, B: 0.5}` with a warning) and to `{A: 2, B: -1/2}` (negative
weight accepted, normalized by the sum 3/2). -/
theorem C7_weight_normalization_witness :
    npIsClose (((([("A", (2:ℚ)), ("B", 2)]).map Prod.snd).sum)) 1 = false ∧
    portfolioInitWeights [("A", (2:ℚ)), ("B", 2)] =
      .ok ([("A", (1:ℚ)/2), ("B", 1/2)], true) ∧
    portfolioInitWeights [("A", (2:ℚ)), ("B", -1/2)] =
      .ok ([("A", (4:ℚ)/3), ("B", -1/3)], true) :=
  ⟨by norm_num [npIsClose, abs_of_nonneg],
   ((C7_weight_normalization [("A", (2:ℚ)), ("B", 2)]
      (by norm_num [npIsClose, abs_of_nonneg]) (by norm_num)).1).trans (by norm_num),
   ((C7_weight_normalization [("A", (2:ℚ)), ("B", -1/2)]
      (by norm_num [npIsClose, abs_of_nonneg]) (by norm_num)).1).trans (by norm_num)⟩

end Ibov

namespace Ibov

/-- A lookup in an association list succeeds exactly when the key occurs. -/
lemma lookup_isSome_iff (l : List (Nat × ℚ)) (k : Nat) :
    (l.lookup k).isSome = (l.map Prod.fst).contains k := by
  induction l with
  | nil => rfl
  | cons a t ih =>
    simp only [List.lookup, List.map_cons, List.contains_cons]
    by_cases h : k == a.1
    · simp [h]
    · simp only [h]
      rw [ih]
      simp [Bool.false_or]

/-- C6 (confirmed): with a dated risk-free series the excess-return series
carries exactly the timestamps common to the return and rate series (rows
present in only one are silently excluded), its length is the size of that
intersection, and when the intersection is empty the dated-branch Sharpe
computation yields NaN rather than an exception (mean and std of an empty
series are NaN). -/
theorem C6_riskfree_alignment (sq : ℚ → ℚ) (returns riskFree : List (Nat × ℚ))
    (ppy : ℚ) :
    (excess_return_series returns riskFree).map Prod.fst =
      (returns.map Prod.fst).filter (fun k => (riskFree.map Prod.fst).contains k) ∧
    (excess_return_series returns riskFree).length =
      ((returns.map Prod.fst).filter
        (fun k => (riskFree.map Prod.fst).contains k)).length ∧
    ((returns.map Prod.fst).filter (fun k => (riskFree.map Prod.fst).contains k) = [] →
      calculate_sharpe_ratio_dated sq returns riskFree ppy = FVal.nan) := by
  have hkeys : (excess_return_series returns riskFree).map Prod.fst =
      (returns.map Prod.fst).filter (fun k => (riskFree.map Prod.fst).contains k) := by
    induction returns with
    | nil => rfl
    | cons a t ih =>
      simp only [excess_return_series, List.filterMap_cons, List.map_cons, List.filter_cons]
      rcases hl : riskFree.lookup a.1 with _ | r
      · have : (riskFree.map Prod.fst).contains a.1 = false := by
          rw [← lookup_isSome_iff, hl]; rfl
        simp only [this, Option.map_none, if_false]
        exact ih
      · have : (riskFree.map Prod.fst).contains a.1 = true := by
          rw [← lookup_isSome_iff, hl]; rfl
        simp only [this, Option.map_some, if_true, List.map_cons]
        rw [← ih]
        rfl
  refine ⟨hkeys, ?_, ?_⟩
  · rw [← hkeys, List.length_map]
  · intro hempty
    have hexcess : excess_return_series returns riskFree = [] := by
      have := hkeys.trans hempty
      exact List.map_eq_nil_iff.mp this
    simp [calculate_sharpe_ratio_dated, hexcess, seriesMean, seriesStd,
      FVal.smul, FVal.fdiv]

/-- C6 (witness): the theorem applied to a return series dated {1, 2} and a
rate series dated {2, 3}: the excess series lives on the singleton
intersection {2}; and applied to disjoint dates {1} vs {2}: the Sharpe
result is NaN. -/
theorem C6_riskfree_alignment_witness :
    ((excess_return_series [(1, (1:ℚ)/100), (2, 2/100)] [(2, (1:ℚ)/200), (3, 0)]).length =
      (([(1:ℚ)/100].map (fun _ => (1:Nat))).length)) ∧
    calculate_sharpe_ratio_dated (fun x => x) [(1, (1:ℚ)/100)] [(2, (3:ℚ)/100)] 252 =
      FVal.nan :=
  ⟨by
    have h := (C6_riskfree_alignment (fun x => x)
      [(1, (1:ℚ)/100), (2, 2/100)] [(2, (1:ℚ)/200), (3, 0)] 252).2.1
    simpa using h,
   (C6_riskfree_alignment (fun x => x) [(1, (1:ℚ)/100)] [(2, (3:ℚ)/100)] 252).2.2
    (by decide)⟩

end Ibov

namespace Ibov

/-! ## Embedding: historical VaR / CVaR (quantile with linear interpolation) -/

/-- `pd.Series.quantile(q)` with the default `interpolation='linear'`:
read the sorted sample at virtual index `q * (n-1)`, interpolating linearly
between the two adjacent order statistics. -/
def seriesQuantile (q : ℚ) (xs : List ℚ) : Option ℚ :=
  match xs with
  | [] => none
  | _ :: _ =>
    let ys := xs.mergeSort (fun a b => a ≤ b)
    let h := q * ((xs.length : ℚ) - 1)
    let i := (⌊h⌋).toNat
    let j := min (i + 1) (xs.length - 1)
    some (ys.getD i 0 + (h - ⌊h⌋) * (ys.getD j 0 - ys.getD i 0))

/-- `calculate_var`: `returns.quantile(1 - confidence)` (historical method);
`none` plays the NaN a quantile of an empty series produces. -/
def calculate_var (returns : List ℚ) (confidence : ℚ) : Option ℚ :=
  seriesQuantile (1 - confidence) returns

/-- `calculate_cvar`: the mean of `returns[returns <= var]`; `none` plays
the NaN of a mean over an empty selection (or of a NaN VaR). -/
def calculate_cvar (returns : List ℚ) (confidence : ℚ) : Option ℚ :=
  match calculate_var returns confidence with
  | none => none
  | some var =>
    let tail := returns.filter (fun r => r ≤ var)
    if tail.isEmpty then none else some (tail.sum / tail.length)

/-- Modelled from the spec: "the empirical `p`-th percentile via linear
interpolation between order statistics" — the sorted sample read at virtual
index `(p/100) * (n-1)`, interpolating linearly between the two adjacent
order statistics. -/
def empiricalPercentile (p : ℚ) (xs : List ℚ) : Option ℚ :=
  match xs with
  | [] => none
  | _ :: _ =>
    let ys := xs.mergeSort (fun a b => a ≤ b)
    let h := (p / 100) * ((xs.length : ℚ) - 1)
    let i := (⌊h⌋).toNat
    let j := min (i + 1) (xs.length - 1)
    some (ys.getD i 0 + (h - ⌊h⌋) * (ys.getD j 0 - ys.getD i 0))

/-- A linear-interpolation quantile of a nonempty sample exists and is
bracketed by two sample points. -/
lemma quantile_between (q : ℚ) (xs : List ℚ) (hne : xs ≠ [])
    (hq0 : 0 ≤ q) (hq1 : q ≤ 1) :
    ∃ v, seriesQuantile q xs = some v ∧ (∃ a ∈ xs, a ≤ v) ∧ (∃ b ∈ xs, v ≤ b) := by
  obtain ⟨x, t, rfl⟩ := List.exists_cons_of_ne_nil hne
  set xs := x :: t with hxs
  set n := xs.length with hn
  have hn1 : 1 ≤ n := by rw [hn, hxs, List.length_cons]; omega
  set ys := xs.mergeSort (fun a b => a ≤ b) with hys
  have hlen : ys.length = n := by
    rw [hys, (List.mergeSort_perm xs _).length_eq]
  have hsorted : List.Sorted (· ≤ ·) ys := by
    rw [hys]
    exact List.sorted_mergeSort' xs
  set h := q * ((n : ℚ) - 1) with hh
  have hh0 : 0 ≤ h := by
    apply mul_nonneg hq0
    have : (1 : ℚ) ≤ (n : ℚ) := by exact_mod_cast hn1
    linarith
  have hhle : h ≤ (n : ℚ) - 1 := by
    have h1 : (0:ℚ) ≤ (n : ℚ) - 1 := by
      have : (1 : ℚ) ≤ (n : ℚ) := by exact_mod_cast hn1
      linarith
    calc h = q * ((n:ℚ) - 1) := rfl
    _ ≤ 1 * ((n:ℚ) - 1) := by apply mul_le_mul_of_nonneg_right hq1 h1
    _ = (n:ℚ) - 1 := one_mul _
  have hfl0 : 0 ≤ ⌊h⌋ := Int.floor_nonneg.mpr hh0
  set i := (⌊h⌋).toNat with hi
  have hiln : i ≤ n - 1 := by
    have h1 : ⌊h⌋ ≤ ⌊(n:ℚ) - 1⌋ := Int.floor_le_floor hhle
    have h2 : ⌊(n:ℚ) - 1⌋ = (n : ℤ) - 1 := by
      rw [show ((n:ℚ) - 1) = ((n - 1 : ℤ) : ℚ) by push_cast; ring]
      exact Int.floor_intCast _
    omega
  set j := min (i + 1) (n - 1) with hj
  have hjlt : j < n := by omega
  have hilt : i < n := by omega
  have hij : i ≤ j := by omega
  have hilt' : i < ys.length := by omega
  have hjlt' : j < ys.length := by omega
  set yi := ys.getD i 0 with hyi
  set yj := ys.getD j 0 with hyj
  have hyi' : yi = ys.get ⟨i, hilt'⟩ := List.getD_eq_get ys 0 hilt'
  have hyj' : yj = ys.get ⟨j, hjlt'⟩ := List.getD_eq_get ys 0 hjlt'
  have hyij : yi ≤ yj := by
    rw [hyi', hyj']
    exact hsorted.rel_get_of_le (by exact_mod_cast hij)
  have hperm : ys.Perm xs := by
    rw [hys]
    exact List.mergeSort_perm xs _
  have hmemi : yi ∈ xs := by
    rw [hyi']
    exact hperm.mem_iff.mp (List.get_mem ys i hilt')
  have hmemj : yj ∈ xs := by
    rw [hyj']
    exact hperm.mem_iff.mp (List.get_mem ys j hjlt')
  have hfr0 : 0 ≤ h - ⌊h⌋ := by
    have := Int.floor_le h
    linarith
  have hfr1 : h - ⌊h⌋ < 1 := by
    have := Int.lt_floor_add_one h
    linarith
  refine ⟨yi + (h - ⌊h⌋) * (yj - yi), ?_, ⟨yi, hmemi, ?_⟩, ⟨yj, hmemj, ?_⟩⟩
  · rfl
  · nlinarith
  · nlinarith

/-- The mean of a nonempty list of values all bounded by `v` is bounded by
`v`. -/
lemma mean_le_of_le (l : List ℚ) (v : ℚ) (hne : l ≠ []) (h : ∀ x ∈ l, x ≤ v) :
    l.sum / l.length ≤ v := by
  have hpos : 0 < (l.length : ℚ) := by
    have : 0 < l.length := List.length_pos.mpr hne
    exact_mod_cast this
  rw [div_le_iff hpos]
  calc l.sum ≤ l.length • v := List.sum_le_card_nsmul l v h
  _ = v * l.length := by rw [nsmul_eq_mul]; ring

end Ibov

namespace Ibov

/-- C2 (confirmed): for every non-empty return series, VaR at confidence
0.95 equals the spec's empirical 5th percentile with linear interpolation,
CVaR at 0.95 is exactly the mean of the returns at or below that VaR, and
CVaR(0.95) ≤ VaR(0.95). -/
theorem C2_var_cvar_roundtrip (returns : List ℚ) (hne : returns ≠ []) :
    calculate_var returns (95/100) = empiricalPercentile 5 returns ∧
    ∃ v c, calculate_var returns (95/100) = some v ∧
      calculate_cvar returns (95/100) = some c ∧
      c = (returns.filter (fun r => r ≤ v)).sum /
          ((returns.filter (fun r => r ≤ v)).length : ℚ) ∧
      c ≤ v := by
  constructor
  · have hq : (1 : ℚ) - 95/100 = (5 : ℚ)/100 := by norm_num
    cases returns with
    | nil => rfl
    | cons x t =>
      simp only [calculate_var, seriesQuantile, empiricalPercentile, hq]
  · obtain ⟨v, hv, ⟨a, hamem, hav⟩, -⟩ :=
      quantile_between (1 - 95/100) returns hne (by norm_num) (by norm_num)
    have hvv : calculate_var returns (95/100) = some v := hv
    have hatail : a ∈ returns.filter (fun r => r ≤ v) := by
      rw [List.mem_filter]
      exact ⟨hamem, by simpa using hav⟩
    have htne : returns.filter (fun r => r ≤ v) ≠ [] :=
      List.ne_nil_of_mem hatail
    have htemp : (returns.filter (fun r => r ≤ v)).isEmpty = false := by
      rw [List.isEmpty_eq_false]
      exact htne
    refine ⟨v, (returns.filter (fun r => r ≤ v)).sum /
      ((returns.filter (fun r => r ≤ v)).length : ℚ), hvv, ?_, rfl, ?_⟩
    · simp only [calculate_cvar, hvv, htemp, Bool.false_eq_true, if_false]
    · apply mean_le_of_le _ _ htne
      intro x hx
      exact by simpa using (List.mem_filter.mp hx).2

/-- C2 (witness): the theorem applied to the concrete return series
`[3/100, -1/100, 2/100]`. -/
theorem C2_var_cvar_roundtrip_witness :
    ([(3:ℚ)/100, -1/100, 2/100] : List ℚ) ≠ [] ∧
    (calculate_var [(3:ℚ)/100, -1/100, 2/100] (95/100) =
      empiricalPercentile 5 [(3:ℚ)/100, -1/100, 2/100] ∧
    ∃ v c, calculate_var [(3:ℚ)/100, -1/100, 2/100] (95/100) = some v ∧
      calculate_cvar [(3:ℚ)/100, -1/100, 2/100] (95/100) = some c ∧
      c = (([(3:ℚ)/100, -1/100, 2/100] : List ℚ).filter (fun r => r ≤ v)).sum /
          ((([(3:ℚ)/100, -1/100, 2/100] : List ℚ).filter (fun r => r ≤ v)).length : ℚ) ∧
      c ≤ v) :=
  ⟨by simp, C2_var_cvar_roundtrip [(3:ℚ)/100, -1/100, 2/100] (by simp)⟩

/-- C10 (confirmed): for every non-empty return series the VaR quantile is
defined and bracketed by sample points (in particular it is at least the
minimum return), the tail selection `returns[returns <= var]` is non-empty,
and CVaR is therefore a defined (non-NaN) value. -/
theorem C10_cvar_defined (returns : List ℚ) (hne : returns ≠ []) :
    ∃ v, calculate_var returns (95/100) = some v ∧
      (∃ a ∈ returns, a ≤ v) ∧ (∃ b ∈ returns, v ≤ b) ∧
      returns.filter (fun r => r ≤ v) ≠ [] ∧
      ∃ c, calculate_cvar returns (95/100) = some c := by
  obtain ⟨v, hv, ⟨a, hamem, hav⟩, hb⟩ :=
    quantile_between (1 - 95/100) returns hne (by norm_num) (by norm_num)
  have hvv : calculate_var returns (95/100) = some v := hv
  have hatail : a ∈ returns.filter (fun r => r ≤ v) := by
    rw [List.mem_filter]
    exact ⟨hamem, by simpa using hav⟩
  have htne : returns.filter (fun r => r ≤ v) ≠ [] :=
    List.ne_nil_of_mem hatail
  have htemp : (returns.filter (fun r => r ≤ v)).isEmpty = false := by
    rw [List.isEmpty_eq_false]
    exact htne
  refine ⟨v, hvv, ⟨a, hamem, hav⟩, hb, htne, ?_⟩
  refine ⟨(returns.filter (fun r => r ≤ v)).sum /
    ((returns.filter (fun r => r ≤ v)).length : ℚ), ?_⟩
  simp only [calculate_cvar, hvv, htemp, Bool.false_eq_true, if_false]

/-- C10 (witness): the theorem applied to the concrete return series
`[-1/10, 2/10]`. -/
theorem C10_cvar_defined_witness :
    ([-(1:ℚ)/10, 2/10] : List ℚ) ≠ [] ∧
    (∃ v, calculate_var [-(1:ℚ)/10, 2/10] (95/100) = some v ∧
      (∃ a ∈ ([-(1:ℚ)/10, 2/10] : List ℚ), a ≤ v) ∧
      (∃ b ∈ ([-(1:ℚ)/10, 2/10] : List ℚ), v ≤ b) ∧
      ([-(1:ℚ)/10, 2/10] : List ℚ).filter (fun r => r ≤ v) ≠ [] ∧
      ∃ c, calculate_cvar [-(1:ℚ)/10, 2/10] (95/100) = some c) :=
  ⟨by simp, C10_cvar_defined [-(1:ℚ)/10, 2/10] (by simp)⟩

end Ibov

namespace Ibov

/-! ## Embedding: maximum drawdown (pandas skip-NA pipeline) -/

/-- `prices.pct_change()` for a gap-free price series: NaN at position 0
(modelled `none`), then `(p[t] - p[t-1]) / p[t-1]`. -/
def pct_change (prices : List ℚ) : List (Option ℚ) :=
  match prices with
  | [] => []
  | p :: rest => none :: (List.zipWith (fun a b => some ((b - a) / a)) (p :: rest) rest)

/-- `.cumprod()` with pandas' `skipna=True`: a NaN stays in place and the
running product skips it. -/
def cumprodSkipAux (acc : ℚ) : List (Option ℚ) → List (Option ℚ)
  | [] => []
  | none :: rest => none :: cumprodSkipAux acc rest
  | some x :: rest => some (acc * x) :: cumprodSkipAux (acc * x) rest

/-- `.cumprod()` starting from the empty product. -/
def cumprodSkip (xs : List (Option ℚ)) : List (Option ℚ) := cumprodSkipAux 1 xs

/-- `.expanding().max()`: at every position the max of the non-NaN prefix,
NaN while no observation has been seen. -/
def expandingMaxAux (acc : Option ℚ) : List (Option ℚ) → List (Option ℚ)
  | [] => []
  | none :: rest => acc :: expandingMaxAux acc rest
  | some x :: rest =>
      match acc with
      | none => some x :: expandingMaxAux (some x) rest
      | some a => some (max a x) :: expandingMaxAux (some (max a x)) rest

/-- `.expanding().max()` from an empty window. -/
def expandingMax (xs : List (Option ℚ)) : List (Option ℚ) := expandingMaxAux none xs

/-- `.min()` with pandas' `skipna=True`: NaN only when no observation
exists. -/
def minSkip (xs : List (Option ℚ)) : Option ℚ :=
  xs.foldl (fun acc x =>
    match acc, x with
    | none, v => v
    | some a, none => some a
    | some a, some b => some (min a b)) none

/-- `calculate_max_drawdown`, single series:
`cumulative = (1 + prices.pct_change()).cumprod()`,
`running_max = cumulative.expanding().max()`,
`drawdown = (cumulative - running_max) / running_max`, result
`drawdown.min()`. -/
def calculate_max_drawdown (prices : List ℚ) : Option ℚ :=
  let cumulative := cumprodSkip ((pct_change prices).map (Option.map (fun r => 1 + r)))
  let running_max := expandingMax cumulative
  let drawdown := List.zipWith (fun c m =>
    match c, m with
    | some cv, some mv => some ((cv - mv) / mv)
    | _, _ => none) cumulative running_max
  minSkip drawdown

/-- Running products, for reasoning about `cumprodSkip` on NaN-free data. -/
def scanMul (acc : ℚ) : List ℚ → List ℚ
  | [] => []
  | x :: rest => (acc * x) :: scanMul (acc * x) rest

/-- Running maxima, for reasoning about `expandingMax` on NaN-free data. -/
def scanMax (a : ℚ) : List ℚ → List ℚ
  | [] => []
  | x :: rest => (max a x) :: scanMax (max a x) rest

lemma zipWith_some_eq (f : ℚ → ℚ → ℚ) (l l' : List ℚ) :
    List.zipWith (fun a b => some (f a b)) l l' = (List.zipWith f l l').map some := by
  induction l generalizing l' with
  | nil => simp
  | cons x t ih => cases l' <;> simp [ih]

lemma cumprodSkipAux_map_some (acc : ℚ) (l : List ℚ) :
    cumprodSkipAux acc (l.map some) = (scanMul acc l).map some := by
  induction l generalizing acc with
  | nil => rfl
  | cons x t ih => simp [cumprodSkipAux, scanMul, ih]

lemma expandingMaxAux_map_some (a : ℚ) (l : List ℚ) :
    expandingMaxAux (some a) (l.map some) = (scanMax a l).map some := by
  induction l generalizing a with
  | nil => rfl
  | cons x t ih => simp [expandingMaxAux, scanMax, ih]

lemma foldl_minstep_some (a : ℚ) (l : List ℚ) :
    List.foldl (fun acc x =>
      match acc, x with
      | none, v => v
      | some a, none => some a
      | some a, some b => some (min a b)) (some a) (l.map some) =
    some (List.foldl min a l) := by
  induction l generalizing a with
  | nil => rfl
  | cons x t ih => simp [ih]

lemma foldl_min_le_init (a : ℚ) (l : List ℚ) : List.foldl min a l ≤ a := by
  induction l generalizing a with
  | nil => simp
  | cons x t ih => exact le_trans (ih (min a x)) (min_le_left a x)

lemma foldl_min_le_mem (a : ℚ) (l : List ℚ) (x : ℚ) (hx : x ∈ l) :
    List.foldl min a l ≤ x := by
  induction l generalizing a with
  | nil => cases hx
  | cons y t ih =>
    rcases List.mem_cons.mp hx with rfl | hx'
    · exact le_trans (foldl_min_le_init (min a x) t) (min_le_right a x)
    · exact ih (min a y) hx'

lemma foldl_min_eq_of_le (l : List ℚ) :
    ∀ a : ℚ, (∀ x ∈ l, a ≤ x) → List.foldl min a l = a := by
  induction l with
  | nil => intro a h; rfl
  | cons y t ih =>
    intro a h
    have hay : a ≤ y := h y (List.mem_cons_self y t)
    have hmin : min a y = a := min_eq_left hay
    simp only [List.foldl_cons, hmin]
    exact ih a (fun x hx => h x (List.mem_cons_of_mem y hx))

lemma foldl_min_eq_init_iff (a : ℚ) (l : List ℚ) :
    List.foldl min a l = a ↔ ∀ x ∈ l, a ≤ x := by
  constructor
  · intro h x hx
    calc a = List.foldl min a l := h.symm
    _ ≤ x := foldl_min_le_mem a l x hx
  · exact foldl_min_eq_of_le l a

lemma zipWith_opt_some (l l' : List ℚ) :
    List.zipWith (fun c m =>
      match c, m with
      | some cv, some mv => some ((cv - mv) / mv)
      | _, _ => none) (l.map some) (l'.map some) =
    (List.zipWith (fun cv mv => (cv - mv) / mv) l l').map some := by
  induction l generalizing l' with
  | nil => simp
  | cons x t ih => cases l' <;> simp [ih]

/-- Every drawdown entry against the running maximum of positive cumulative
values is nonpositive. -/
lemma dd_le_zero (l : List ℚ) :
    ∀ y : ℚ, 0 < y → (∀ c ∈ l, 0 < c) →
      ∀ d ∈ List.zipWith (fun cv mv => (cv - mv) / mv) l (scanMax y l), d ≤ 0 := by
  induction l with
  | nil => intro y _ _ d hd; cases hd
  | cons x t ih =>
    intro y hy hl d hd
    have hx : 0 < x := hl x (List.mem_cons_self x t)
    have hmax : 0 < max y x := lt_of_lt_of_le hy (le_max_left y x)
    simp only [scanMax, List.zipWith_cons_cons, List.mem_cons] at hd
    rcases hd with rfl | hd'
    · apply div_nonpos_of_nonpos_of_nonneg
      · linarith [le_max_right y x]
      · linarith
    · exact ih (max y x) hmax (fun c hc => hl c (List.mem_cons_of_mem x hc)) d hd'

/-- The drawdown entries are all zero exactly when the cumulative series
never falls below its running maximum, i.e. is a non-decreasing chain. -/
lemma dd_nonneg_iff (l : List ℚ) :
    ∀ y : ℚ, 0 < y → (∀ c ∈ l, 0 < c) →
      ((∀ d ∈ List.zipWith (fun cv mv => (cv - mv) / mv) l (scanMax y l), 0 ≤ d) ↔
        List.Chain (· ≤ ·) y l) := by
  induction l with
  | nil => intro y _ _; simp
  | cons x t ih =>
    intro y hy hl
    have hx : 0 < x := hl x (List.mem_cons_self x t)
    have hmax : 0 < max y x := lt_of_lt_of_le hy (le_max_left y x)
    simp only [scanMax, List.zipWith_cons_cons, List.forall_mem_cons, List.chain_cons]
    have hfirst : (0 ≤ (x - max y x) / max y x) ↔ y ≤ x := by
      rw [le_div_iff₀ hmax, zero_mul, sub_nonneg, max_le_iff]
      simp
    by_cases hyx : y ≤ x
    · have hm : max y x = x := max_eq_right hyx
      rw [hfirst, hm]
      constructor
      · rintro ⟨-, hrest⟩
        exact ⟨hyx, (ih x hx (fun c hc => hl c (List.mem_cons_of_mem x hc))).mp hrest⟩
      · rintro ⟨-, hchain⟩
        exact ⟨hyx, (ih x hx (fun c hc => hl c (List.mem_cons_of_mem x hc))).mpr hchain⟩
    · constructor
      · rintro ⟨h1, -⟩
        exact absurd (hfirst.mp h1) hyx
      · rintro ⟨h1, -⟩
        exact absurd h1 hyx

/-- The cumulative-return products of a positive price series telescope to
price ratios against the first price. -/
lemma scanMul_prices (l : List ℚ) :
    ∀ (a : ℚ), a ≠ 0 → (∀ b ∈ l, b ≠ 0) → ∀ acc : ℚ,
      scanMul acc ((List.zipWith (fun x y => (y - x) / x) (a :: l) l).map
        (fun r => 1 + r)) = l.map (fun p => acc * (p / a)) := by
  induction l with
  | nil => intro a _ _ acc; rfl
  | cons b t ih =>
    intro a ha hl acc
    have hb : b ≠ 0 := hl b (List.mem_cons_self b t)
    simp only [List.zipWith_cons_cons, List.map_cons, scanMul]
    have hhead : acc * (1 + (b - a) / a) = acc * (b / a) := by
      field_simp
    rw [hhead]
    rw [ih b hb (fun c hc => hl c (List.mem_cons_of_mem b hc)) (acc * (b / a))]
    congr 1
    apply List.map_congr_left
    intro p _
    field_simp
    ring

lemma map_optmap_some (g : ℚ → ℚ) (zs : List ℚ) :
    (zs.map some).map (Option.map g) = (zs.map g).map some := by
  simp [List.map_map, Function.comp]

end Ibov

namespace Ibov

/-- C3 (counterexample): on the prices `[100, 50, 60]` — which are not
non-decreasing (100 > 50) — `calculate_max_drawdown` still returns 0: the
fall from the first to the second price is invisible because the running
maximum only starts at the second price (position 0 of the pipeline is
NaN). -/
theorem C3_counterexample :
    calculate_max_drawdown [(100:ℚ), 50, 60] = some 0 ∧
    ¬ List.Chain' (· ≤ ·) [(100:ℚ), 50, 60] := by
  constructor
  · norm_num [calculate_max_drawdown, pct_change, cumprodSkip, cumprodSkipAux,
      expandingMax, expandingMaxAux, minSkip]
  · norm_num [List.chain'_cons]

/-- C3 (amended): for every price series of at least two positive points the
maximum drawdown is defined and ≤ 0, and it equals 0 exactly when the
prices are non-decreasing **from the second point onward** (a decline
between the first and the second price is not detected); `[100, 110, 99]`
still yields −0.10 (established in the witness). -/
theorem C3_max_drawdown (prices : List ℚ) (h2 : 2 ≤ prices.length)
    (hpos : ∀ p ∈ prices, 0 < p) :
    ∃ v, calculate_max_drawdown prices = some v ∧ v ≤ 0 ∧
      (v = 0 ↔ List.Chain' (· ≤ ·) (prices.drop 1)) := by
  obtain ⟨p₀, rest, rfl⟩ : ∃ a t, prices = a :: t := by
    cases prices with
    | nil => simp at h2
    | cons a t => exact ⟨a, t, rfl⟩
  obtain ⟨p₁, ptail, rfl⟩ : ∃ b t, rest = b :: t := by
    cases rest with
    | nil => simp at h2
    | cons b t => exact ⟨b, t, rfl⟩
  have hp₀ : 0 < p₀ := hpos p₀ (List.mem_cons_self _ _)
  have hp₁ : 0 < p₁ := hpos p₁ (by simp)
  have hpt : ∀ p ∈ ptail, 0 < p := fun p hp => hpos p (by simp [hp])
  set c₁ := p₁ / p₀ with hc₁
  set ctail := ptail.map (fun p => p / p₀) with hctail
  have hc₁pos : 0 < c₁ := div_pos hp₁ hp₀
  have hctpos : ∀ c ∈ ctail, 0 < c := by
    intro c hc
    rw [hctail] at hc
    obtain ⟨p, hp, rfl⟩ := List.mem_map.mp hc
    exact div_pos (hpt p hp) hp₀
  have hcum : cumprodSkip ((pct_change (p₀ :: p₁ :: ptail)).map
      (Option.map (fun r => 1 + r))) = none :: (c₁ :: ctail).map some := by
    have h1 : pct_change (p₀ :: p₁ :: ptail) =
        none :: (List.zipWith (fun a b => (b - a) / a)
          (p₀ :: p₁ :: ptail) (p₁ :: ptail)).map some := by
      simp only [pct_change]
      rw [zipWith_some_eq]
    rw [h1, List.map_cons, map_optmap_some]
    show cumprodSkipAux 1 _ = _
    rw [show (Option.map (fun r => (1:ℚ) + r) none) = none from rfl]
    rw [show cumprodSkipAux 1 (none :: ((List.zipWith (fun a b => (b - a) / a)
      (p₀ :: p₁ :: ptail) (p₁ :: ptail)).map (fun r => 1 + r)).map some) =
      none :: cumprodSkipAux 1 (((List.zipWith (fun a b => (b - a) / a)
      (p₀ :: p₁ :: ptail) (p₁ :: ptail)).map (fun r => 1 + r)).map some) from rfl]
    rw [cumprodSkipAux_map_some]
    have h2' : scanMul 1 ((List.zipWith (fun a b => (b - a) / a)
        (p₀ :: p₁ :: ptail) (p₁ :: ptail)).map (fun r => 1 + r)) =
        (p₁ :: ptail).map (fun p => 1 * (p / p₀)) :=
      scanMul_prices (p₁ :: ptail) p₀ (ne_of_gt hp₀)
        (fun b hb => ne_of_gt (by
          rcases List.mem_cons.mp hb with rfl | hb'
          exacts [hp₁, hpt b hb'])) 1
    rw [h2']
    congr 1
    rw [show (p₁ :: ptail).map (fun p => 1 * (p / p₀)) =
      (p₁ :: ptail).map (fun p => p / p₀) from
      List.map_congr_left (fun p _ => one_mul (p / p₀))]
    simp [hc₁, hctail]
  rw [calculate_max_drawdown, hcum]
  have hmax : expandingMax (none :: (c₁ :: ctail).map some) =
      none :: some c₁ :: (scanMax c₁ ctail).map some := by
    show expandingMaxAux none _ = _
    rw [List.map_cons]
    rw [show expandingMaxAux none (none :: some c₁ :: ctail.map some) =
      none :: expandingMaxAux none (some c₁ :: ctail.map some) from rfl]
    rw [show expandingMaxAux none (some c₁ :: ctail.map some) =
      some c₁ :: expandingMaxAux (some c₁) (ctail.map some) from rfl]
    rw [expandingMaxAux_map_some]
  rw [hmax]
  rw [List.map_cons, List.zipWith_cons_cons, List.zipWith_cons_cons]
  rw [zipWith_opt_some]
  have hdd0 : ((c₁ - c₁) / c₁ : ℚ) = 0 := by rw [sub_self, zero_div]
  rw [minSkip]
  simp only [List.foldl_cons, hdd0]
  rw [show (List.foldl (fun acc x =>
      match acc, x with
      | none, v => v
      | some a, none => some a
      | some a, some b => some (min a b)) (some 0)
      ((List.zipWith (fun cv mv => (cv - mv) / mv) ctail (scanMax c₁ ctail)).map some)) =
    some (List.foldl min 0 (List.zipWith (fun cv mv => (cv - mv) / mv) ctail
      (scanMax c₁ ctail))) from foldl_minstep_some 0 _]
  refine ⟨_, rfl, ?_, ?_⟩
  · exact foldl_min_le_init 0 _
  · rw [foldl_min_eq_init_iff]
    rw [dd_nonneg_iff ctail c₁ hc₁pos hctpos]
    simp only [List.drop_succ_cons, List.drop_zero]
    rw [hc₁, hctail]
    constructor
    · intro h
      exact List.chain_of_chain_map (R := (· ≤ ·)) (fun p => p / p₀)
        (fun a b hab => (div_le_div_iff_of_pos_right hp₀).mp hab) h
    · intro h
      exact List.chain_map_of_chain (fun p => p / p₀)
        (fun a b hab => (div_le_div_iff_of_pos_right hp₀).mpr hab) h

/-- C3 (witness): `[100, 110, 99]` evaluates to the claimed −0.10, and the
amended theorem applies to it: the drawdown is defined, ≤ 0, and nonzero
since the prices fall after the second point. -/
theorem C3_max_drawdown_witness :
    calculate_max_drawdown [(100:ℚ), 110, 99] = some (-1/10) ∧
    2 ≤ ([(100:ℚ), 110, 99] : List ℚ).length ∧
    (∃ v, calculate_max_drawdown [(100:ℚ), 110, 99] = some v ∧ v ≤ 0 ∧
      (v = 0 ↔ List.Chain' (· ≤ ·) (([(100:ℚ), 110, 99] : List ℚ).drop 1))) :=
  ⟨by norm_num [calculate_max_drawdown, pct_change, cumprodSkip, cumprodSkipAux,
      expandingMax, expandingMaxAux, minSkip],
   by decide,
   C3_max_drawdown [(100:ℚ), 110, 99] (by decide) (by norm_num)⟩

end Ibov

namespace Ibov

/-! ## Embedding: multi-asset price tables (calculate_returns on a
DataFrame, as used by IbovespaRiskAnalyzer.calculate_all_metrics) -/

/-- pandas' forward-fill (`fill_method='pad'`), applied by `pct_change`
before differencing; a leading missing value stays missing. -/
def ffill (acc : Option ℚ) : List (Option ℚ) → List (Option ℚ)
  | [] => []
  | none :: rest => acc :: ffill acc rest
  | some x :: rest => some x :: ffill (some x) rest

/-- `pct_change` of one column of a price table: position 0, and any
position whose current or previous (forward-filled) value is still
missing, are NaN. -/
def pct_change_col (col : List (Option ℚ)) : List (Option ℚ) :=
  match ffill none col with
  | [] => []
  | f :: rest => none :: List.zipWith (fun a b =>
      match a, b with
      | some av, some bv => some ((bv - av) / av)
      | _, _ => none) (f :: rest) rest

/-- Number of rows of a column-major table (the length of its first
column). -/
def tableLen (table : List (String × List (Option ℚ))) : Nat :=
  match table with
  | [] => 0
  | c :: _ => c.2.length

/-- Restrict one column to the rows selected by the mask. -/
def applyMask (mask : List Bool) (col : List (Option ℚ)) : List ℚ :=
  (List.zip mask col).filterMap (fun mx =>
    match mx with
    | (true, some v) => some v
    | _ => none)

/-- `DataFrame.dropna()`: drop every row in which **any** column is NaN —
the row mask is the conjunction of per-column `isSome` masks. -/
def dropna_rows (t : List (String × List (Option ℚ))) : List (String × List ℚ) :=
  let mask := (t.map Prod.snd).foldl
      (fun m col => List.zipWith (fun b x => b && x.isSome) m col)
      (List.replicate (tableLen t) true)
  t.map (fun c => (c.1, applyMask mask c.2))

/-- `calculate_returns` on a multi-asset price table:
`prices.pct_change().dropna()` column-wise, then row-wise NaN removal. -/
def calculate_returns_table (table : List (String × List (Option ℚ))) :
    List (String × List ℚ) :=
  dropna_rows (table.map (fun c => (c.1, pct_change_col c.2)))

lemma ffill_map_some (acc : Option ℚ) (xs : List ℚ) :
    ffill acc (xs.map some) = xs.map some := by
  induction xs generalizing acc with
  | nil => rfl
  | cons x t ih => simp [ffill, ih]

lemma zipWith_pctmatch_some (l l' : List ℚ) :
    List.zipWith (fun a b =>
      match a, b with
      | some av, some bv => some ((bv - av) / av)
      | _, _ => none) (l.map some) (l'.map some) =
    (List.zipWith (fun av bv => (bv - av) / av) l l').map some := by
  induction l generalizing l' with
  | nil => simp
  | cons x t ih => cases l' <;> simp [ih]

/-- On a complete column, the table-wise `pct_change` is the single-series
one: a leading NaN followed by the simple returns. -/
lemma pct_col_complete (x : ℚ) (t : List ℚ) :
    pct_change_col ((x :: t).map some) = none :: (calculate_returns (x :: t)).map some := by
  have hf : ffill none ((x :: t).map some) = (x :: t).map some := ffill_map_some none (x :: t)
  unfold pct_change_col
  rw [hf, List.map_cons]
  show none :: List.zipWith (fun a b =>
      match a, b with
      | some av, some bv => some ((bv - av) / av)
      | _, _ => none) (some x :: t.map some) (t.map some) =
    none :: (calculate_returns (x :: t)).map some
  have h2 := zipWith_pctmatch_some (x :: t) t
  simp only [List.map_cons] at h2
  rw [h2]
  rfl

lemma pct_col_complete' (xs : List ℚ) (h : xs ≠ []) :
    pct_change_col (xs.map some) = none :: (calculate_returns xs).map some := by
  obtain ⟨x, t, rfl⟩ : ∃ a l, xs = a :: l := by
    cases xs with
    | nil => exact absurd rfl h
    | cons a l => exact ⟨a, l, rfl⟩
  exact pct_col_complete x t

lemma zipWith_and_some (ms : List Bool) (ys : List ℚ) :
    List.zipWith (fun b x => b && x.isSome) ms (ys.map some) = ms.take ys.length := by
  induction ms generalizing ys with
  | nil => simp
  | cons m mt ih =>
    cases ys with
    | nil => simp
    | cons y yt => simp [ih]

/-- Over columns that are NaN-free except for a leading NaN, `dropna`'s
row mask is: drop the first row, keep the rest. -/
lemma foldl_mask (colsT : List (List ℚ)) (n : Nat)
    (hl : ∀ ys ∈ colsT, ys.length = n) (hne : colsT ≠ []) :
    ∀ (b : Bool) (ms : List Bool), ms.length = n →
      List.foldl (fun m col => List.zipWith (fun b x => b && x.isSome) m col)
        (b :: ms) (colsT.map (fun ys => none :: ys.map some)) = false :: ms := by
  induction colsT with
  | nil => exact absurd rfl hne
  | cons ys rest ih =>
    intro b ms hms
    have hys : ys.length = n := hl ys (List.mem_cons_self ys rest)
    simp only [List.map_cons, List.foldl_cons]
    have hstep : List.zipWith (fun b x => b && x.isSome) (b :: ms) (none :: ys.map some) =
        false :: ms := by
      simp only [List.zipWith_cons_cons, Option.isSome_none, Bool.and_false]
      rw [zipWith_and_some, hys, ← hms, List.take_length]
    rw [hstep]
    cases rest with
    | nil => rfl
    | cons zs rest' =>
      exact ih (fun c hc => hl c (List.mem_cons_of_mem ys hc)) (by simp) false ms hms

lemma applyMask_complete (ys : List ℚ) :
    applyMask (false :: List.replicate ys.length true) (none :: ys.map some) = ys := by
  simp only [applyMask, List.zip_cons_cons, List.filterMap_cons]
  induction ys with
  | nil => rfl
  | cons y yt ih =>
    simp only [List.replicate, List.map_cons, List.zip_cons_cons, List.filterMap_cons]
    simp only [applyMask, List.zip_cons_cons, List.filterMap_cons] at ih
    simpa using ih

lemma calc_returns_length (xs : List ℚ) :
    (calculate_returns xs).length = xs.length - 1 := by
  cases xs with
  | nil => rfl
  | cons x t => simp [calculate_returns]

end Ibov

namespace Ibov

/-- C8 (counterexample): in the two-asset table where B misses its first
price, the table-level `dropna` removes rows from A's return series too:
A's extracted returns are `[1/10]` while A alone yields `[1/10, 1/10]`, and
A's reported volatility becomes NaN instead of the 0 computed on A alone —
cross-asset leakage through missing entries of another column. -/
theorem C8_counterexample :
    calculate_returns_table
      [("A", [some (100:ℚ), some 110, some 121]), ("B", [none, some 100, some 110])] =
      [("A", [(1:ℚ)/10]), ("B", [(1:ℚ)/10])] ∧
    calculate_returns [(100:ℚ), 110, 121] = [(1:ℚ)/10, 1/10] ∧
    calculate_volatility (fun x => x) [(1:ℚ)/10] 252 = FVal.nan ∧
    calculate_volatility (fun x => x) [(1:ℚ)/10, 1/10] 252 = FVal.fin 0 := by
  refine ⟨?_, ?_, ?_, ?_⟩
  · norm_num [calculate_returns_table, dropna_rows, pct_change_col, ffill,
      tableLen, applyMask, List.replicate, List.filterMap_cons]
  · norm_num [calculate_returns]
  · norm_num [calculate_volatility, seriesStd, FVal.mulc]
  · norm_num [calculate_volatility, seriesStd, sampleVar, FVal.mulc]

/-- C8 (amended): on a complete rectangular price table (no missing
entries), the per-asset return series extracted by the table path equals
the one computed on that asset's series alone, hence every per-asset metric
(volatility shown) is computed independently per column; with missing
entries the counterexample shows cross-asset leakage via `dropna`. -/
theorem C8_no_cross_asset_leakage (tot : List (String × List ℚ)) (L : Nat)
    (hL : 1 ≤ L) (hlen : ∀ c ∈ tot, c.2.length = L) :
    calculate_returns_table (tot.map (fun c => (c.1, c.2.map some))) =
      tot.map (fun c => (c.1, calculate_returns c.2)) ∧
    ∀ (sq : ℚ → ℚ) (ppy : ℚ),
      (calculate_returns_table (tot.map (fun c => (c.1, c.2.map some)))).map
        (fun c => (c.1, calculate_volatility sq c.2 ppy)) =
      tot.map (fun c => (c.1, calculate_volatility sq (calculate_returns c.2) ppy)) := by
  obtain ⟨n, rfl⟩ : ∃ n, L = n + 1 := ⟨L - 1, by omega⟩
  have hmain : calculate_returns_table (tot.map (fun c => (c.1, c.2.map some))) =
      tot.map (fun c => (c.1, calculate_returns c.2)) := by
    cases tot with
    | nil => rfl
    | cons c₀ rest =>
      set tot := c₀ :: rest with htot
      have hne : ∀ c ∈ tot, c.2 ≠ [] := by
        intro c hc h
        have := hlen c hc
        rw [h] at this
        simp at this
      have h1 : (tot.map (fun c => (c.1, c.2.map some))).map
          (fun c => (c.1, pct_change_col c.2)) =
          tot.map (fun c => (c.1, none :: (calculate_returns c.2).map some)) := by
        rw [List.map_map]
        apply List.map_congr_left
        intro c hc
        simp only [Function.comp]
        rw [pct_col_complete' c.2 (hne c hc)]
      unfold calculate_returns_table
      rw [h1]
      unfold dropna_rows
      have htlen : tableLen (tot.map
          (fun c => (c.1, none :: (calculate_returns c.2).map some))) = n + 1 := by
        rw [htot]
        show (none :: (calculate_returns c₀.2).map some).length = n + 1
        rw [List.length_cons, List.length_map, calc_returns_length,
          hlen c₀ (List.mem_cons_self c₀ rest)]
        omega
      rw [htlen]
      have hcols : (tot.map (fun c => (c.1, none ::
          (calculate_returns c.2).map some))).map Prod.snd =
          (tot.map (fun c => calculate_returns c.2)).map
            (fun ys => none :: ys.map some) := by
        simp [List.map_map, Function.comp]
      rw [hcols]
      have hmask : List.foldl (fun m col => List.zipWith (fun b x => b && x.isSome) m col)
          (List.replicate (n + 1) true)
          ((tot.map (fun c => calculate_returns c.2)).map (fun ys => none :: ys.map some)) =
          false :: List.replicate n true := by
        rw [show List.replicate (n + 1) true = true :: List.replicate n true from rfl]
        apply foldl_mask
        · intro ys hys
          obtain ⟨c, hc, rfl⟩ := List.mem_map.mp hys
          rw [calc_returns_length, hlen c hc]
        · simp [htot]
        · simp
      rw [hmask]
      rw [List.map_map]
      apply List.map_congr_left
      intro c hc
      simp only [Function.comp]
      have hlc : (calculate_returns c.2).length = n := by
        rw [calc_returns_length, hlen c hc]
        omega
      rw [show (List.replicate n true) = List.replicate (calculate_returns c.2).length true by
        rw [hlc]]
      rw [applyMask_complete]
  refine ⟨hmain, ?_⟩
  intro sq ppy
  rw [hmain, List.map_map]
  rfl

/-- C8 (witness): the amended theorem applied to a complete two-asset table
with three rows: both columns' extracted return series coincide with the
series computed on each asset alone. -/
theorem C8_no_cross_asset_leakage_witness :
    (∀ c ∈ ([("A", [(100:ℚ), 110, 121]), ("B", [(50:ℚ), 100, 110])] :
        List (String × List ℚ)), c.2.length = 3) ∧
    calculate_returns_table
      (([("A", [(100:ℚ), 110, 121]), ("B", [(50:ℚ), 100, 110])] :
        List (String × List ℚ)).map (fun c => (c.1, c.2.map some))) =
      ([("A", [(100:ℚ), 110, 121]), ("B", [(50:ℚ), 100, 110])] :
        List (String × List ℚ)).map (fun c => (c.1, calculate_returns c.2)) :=
  ⟨by simp,
   (C8_no_cross_asset_leakage
      [("A", [(100:ℚ), 110, 121]), ("B", [(50:ℚ), 100, 110])] 3
      (by omega) (by simp)).1⟩

end Ibov
